import Mathlib

/-!
Shallow embedding of the company-statistics core of the MJ repository
(`db_update.py` and `analytics_core.py`).  Strings are modelled over the
ASCII case mapping, which is all the source ever feeds these functions.
-/

namespace MJ

/-! ## Python string primitives -/

/-- Python `\s` / `str.strip` whitespace class (ASCII part). -/
def pyIsSpace (c : Char) : Bool :=
  c = ' ' || c = '\t' || c = '\n' || c = '\r' || c = '\x0b' || c = '\x0c'

/-- `str.lower` on one ASCII character. -/
def pyLowerChar (c : Char) : Char :=
  if 'A' ≤ c ∧ c ≤ 'Z' then Char.ofNat (c.toNat + 32) else c

/-- `str.upper` on one ASCII character. -/
def pyUpperChar (c : Char) : Char :=
  if 'a' ≤ c ∧ c ≤ 'z' then Char.ofNat (c.toNat - 32) else c

def pyLower (s : String) : String := ⟨s.data.map pyLowerChar⟩

def pyUpper (s : String) : String := ⟨s.data.map pyUpperChar⟩

def pyStripList (cs : List Char) : List Char :=
  ((cs.dropWhile pyIsSpace).reverse.dropWhile pyIsSpace).reverse

/-- Python `str.strip()` with no arguments. -/
def pyStrip (s : String) : String := ⟨pyStripList s.data⟩

def pySplitGo : List Char → List Char → List String
  | [], cur => if cur.isEmpty then [] else [⟨cur.reverse⟩]
  | c :: rest, cur =>
    if pyIsSpace c then
      if cur.isEmpty then pySplitGo rest []
      else (⟨cur.reverse⟩ : String) :: pySplitGo rest []
    else pySplitGo rest (c :: cur)

/-- Python `str.split()` with no arguments: split on whitespace runs,
no empty fields. -/
def pySplit (s : String) : List String := pySplitGo s.data []

def pyIsAlphaChar (c : Char) : Bool :=
  ('a' ≤ c ∧ c ≤ 'z') || ('A' ≤ c ∧ c ≤ 'Z')

def pyTitleGo : List Char → Bool → List Char
  | [], _ => []
  | c :: rest, prevAlpha =>
    if pyIsAlphaChar c then
      (if prevAlpha then pyLowerChar c else pyUpperChar c) :: pyTitleGo rest true
    else c :: pyTitleGo rest false

/-- Python `str.title()` (ASCII): a letter is uppercased when the previous
character is not a letter, lowercased otherwise. -/
def pyTitle (s : String) : String := ⟨pyTitleGo s.data false⟩

/-- Python `needle in hay` on strings (character lists). -/
def containsSub (needle : List Char) : List Char → Bool
  | [] => needle.isPrefixOf []
  | c :: rest => needle.isPrefixOf (c :: rest) || containsSub needle rest

/-! ## Dynamically typed Python values

The source receives `company_name`, `location` and `result` from a
loosely-typed pipeline; this type models the values those parameters can
take (`str`, `None`, `int`, `bool`). -/

inductive PyVal where
  | vstr (s : String)
  | vnone
  | vint (n : Int)
  | vbool (b : Bool)
deriving Repr, DecidableEq

/-- Python truthiness of a `PyVal`. -/
def pyTruthy : PyVal → Bool
  | .vstr s => !s.isEmpty
  | .vnone => false
  | .vint n => n ≠ 0
  | .vbool b => b

/-- Python `str(v)`. -/
def pyStr : PyVal → String
  | .vstr s => s
  | .vnone => "None"
  | .vint n => toString n
  | .vbool b => if b then "True" else "False"

/-! ## `_standardize_company_name` (db_update.py lines 8-64) -/

def invalidNames : List String :=
  ["company", "the company", "this company", "our company",
   "organization", "the organization", "firm", "the firm",
   "employer", "the employer", "hiring company", "a company",
   "your company", "unknown", "n/a", "na"]

/-- Match a literal word at the head of a reversed character list
(the word is given forwards). -/
def eatWord (w : List Char) (rcs : List Char) : Option (List Char) :=
  if w.reverse.isPrefixOf rcs then some (rcs.drop w.length) else none

/-- `\.?` read from the end. -/
def eatOptDot : List Char → List Char
  | '.' :: rest => rest
  | rcs => rcs

/-- `\s*` read from the end. -/
def eatWs (rcs : List Char) : List Char := rcs.dropWhile pyIsSpace

/-- `\s+` read from the end. -/
def eatWs1 : List Char → Option (List Char)
  | [] => none
  | c :: rest => if pyIsSpace c then some (rest.dropWhile pyIsSpace) else none

/-- `\s+pvt\.?\s*ltd\.?$` on a reversed lowercase list. -/
def matchPvtLtd (rcs : List Char) : Option (List Char) :=
  (eatWord "ltd".data (eatOptDot rcs)).bind fun r1 =>
  (eatWord "pvt".data (eatOptDot (eatWs r1))).bind fun r2 =>
  eatWs1 r2

/-- `\s+private\s+limited$` on a reversed lowercase list. -/
def matchPrivateLimited (rcs : List Char) : Option (List Char) :=
  (eatWord "limited".data rcs).bind fun r1 =>
  (eatWs1 r1).bind fun r2 =>
  (eatWord "private".data r2).bind eatWs1

/-- `\s+w$` on a reversed lowercase list. -/
def matchWord (w : String) (rcs : List Char) : Option (List Char) :=
  (eatWord w.data rcs).bind eatWs1

/-- `\s+w\.?$` on a reversed lowercase list. -/
def matchWordOptDot (w : String) (rcs : List Char) : Option (List Char) :=
  (eatWord w.data (eatOptDot rcs)).bind eatWs1

/-- The nine `legal_patterns`, in source order. -/
def legalSuffixMatchers : List (List Char → Option (List Char)) :=
  [matchPvtLtd, matchPrivateLimited, matchWord "llc", matchWordOptDot "inc",
   matchWordOptDot "ltd", matchWordOptDot "co", matchWord "corporation",
   matchWordOptDot "corp", matchWord "limited"]

/-- One `re.sub(pattern, '', name, flags=re.IGNORECASE).strip()` step: since
the running name carries no leading or trailing whitespace, the `$`-anchored
pattern can match only as a true suffix, and removal keeps a prefix of the
original characters. -/
def applyLegalPattern (m : List Char → Option (List Char)) (name : String) : String :=
  match m ((pyLower name).data.reverse) with
  | some rest => pyStrip ⟨name.data.take rest.length⟩
  | none => name

def isTrailPunct (c : Char) : Bool :=
  c = '-' || c = '|' || c = ',' || c = ':' || c = ';' || c = '.'

/-- `re.sub(r'[\-\|,:;.]+$', '', name).strip()`. -/
def stripTrailingPunct (name : String) : String :=
  pyStrip ⟨(name.data.reverse.dropWhile isTrailPunct).reverse⟩

/-- The nine suffix substitutions, applied in order. -/
def stripLegalSuffixes (name : String) : String :=
  legalSuffixMatchers.foldl (fun n m => applyLegalPattern m n) name

/-- Limit to the first 4 whitespace-separated words. -/
def limitWords (name : String) : String :=
  if (pySplit name).length > 4 then String.intercalate " " ((pySplit name).take 4)
  else name

/-- The final validation: empty or still-generic cleaned names become
`"unknown"`. -/
def finalValidate (name : String) : String :=
  if name = "" ∨ invalidNames.contains (pyLower name) then "unknown" else name

/-- The body of `_standardize_company_name` after the type guard, for a
non-empty string input. -/
def standardizeStr (raw : String) : String :=
  if invalidNames.contains (pyLower (pyStrip raw)) then "unknown"
  else finalValidate (pyTitle (limitWords (stripTrailingPunct (stripLegalSuffixes (pyStrip raw)))))

/-- `_standardize_company_name`: falsy or non-string input yields
`"unknown"`. -/
def standardizeCompanyName : PyVal → String
  | .vstr s => if s = "" then "unknown" else standardizeStr s
  | _ => "unknown"

/-! ## `_normalize_for_matching` (db_update.py lines 67-76) -/

def isLowerAlnum (c : Char) : Bool :=
  ('a' ≤ c && c ≤ 'z') || ('0' ≤ c && c ≤ '9')

/-- Lowercase, then keep only `[a-z0-9]`. -/
def normalizeForMatching (name : String) : String :=
  if name = "" then "" else ⟨(pyLower name).data.filter isLowerAlnum⟩

/-! ## `_normalize_location` (db_update.py lines 114-139) -/

def remoteKeywords : List String :=
  ["remote", "virtual", "online", "work from home", "wfh"]

def normalizeLocation : PyVal → String
  | .vstr s =>
    if s = "" then "unknown"
    else
      let loc := pyStrip s
      let locLower := pyLower loc
      if loc = "Remote" || loc = "Hybrid" then loc
      else if remoteKeywords.any (fun k => containsSub k.data locLower.data) then "Remote"
      else if containsSub "hybrid".data locLower.data then "Hybrid"
      else loc
  | _ => "unknown"

/-! ## Data model (persisted `CompanyRecord` document layout) -/

structure Entry where
  website : String
  location : String
  timestamp : String
  confidence_score : Int
deriving Repr, DecidableEq

structure InternshipGroup where
  pattern_matches : List String
  entries : List Entry
deriving Repr, DecidableEq

structure CompanyRecord where
  company_name : String
  company_website : String
  total_analysis_count : Nat
  real_count : Nat
  fake_count : Nat
  fraud_percentage : Rat
  real_internships : InternshipGroup
  fake_internships : InternshipGroup
deriving Repr, DecidableEq

/-- The fresh document built when no existing company matches
(db_update.py lines 224-233). -/
def freshRecord (name_clean : String) : CompanyRecord :=
  { company_name := name_clean
    company_website := "unknown"
    total_analysis_count := 0
    real_count := 0
    fake_count := 0
    fraud_percentage := 0
    real_internships := ⟨[], []⟩
    fake_internships := ⟨[], []⟩ }

/-! ## `_find_existing_company` (db_update.py lines 79-111)

The collection is modelled as a list in natural (insertion) order;
`find_one` returns the first matching document, so the resolver also
returns the index at which `replace_one` later writes. -/

inductive MatchType where
  | exact
  | fuzzy
deriving Repr, DecidableEq

/-- The exact pass: `find_one` on a `^name$`, case-insensitive regex. -/
def findExactAux : List CompanyRecord → String → Nat → Option (Nat × CompanyRecord)
  | [], _, _ => none
  | r :: rest, low, i =>
    if pyLower r.company_name = low then some (i, r) else findExactAux rest low (i + 1)

/-- The fuzzy pass: first stored name with equal normalized form. -/
def findFuzzyAux : List CompanyRecord → String → Nat → Option (Nat × CompanyRecord)
  | [], _, _ => none
  | r :: rest, norm, i =>
    if normalizeForMatching r.company_name = norm then some (i, r)
    else findFuzzyAux rest norm (i + 1)

def findExistingCompany (records : List CompanyRecord) (company_name : String) :
    Option (Nat × CompanyRecord × MatchType) :=
  if company_name = "" ∨ company_name = "unknown" then none
  else
    match findExactAux records (pyLower company_name) 0 with
    | some (i, r) => some (i, r, .exact)
    | none =>
      if normalizeForMatching company_name = "" then none
      else
        match findFuzzyAux records (normalizeForMatching company_name) 0 with
        | some (i, r) => some (i, r, .fuzzy)
        | none => none

/-! ## `_choose_company_website` (db_update.py lines 142-168) -/

/-- The list-comprehension collecting stripped, non-"unknown", truthy
website values of the real entries, in scan order. -/
def entryWebsites (real_entries : List Entry) : List String :=
  (real_entries.filter
    (fun e => !e.website.isEmpty && pyLower (pyStrip e.website) ≠ "unknown")).map
    (fun e => pyStrip e.website)

def countOcc (l : List String) (x : String) : Nat :=
  (l.filter (fun y => y = x)).length

/-- Distinct values in first-occurrence order (a `Counter`'s key order). -/
def dedupFirstAux : List String → List String → List String
  | [], _ => []
  | x :: rest, seen =>
    if x ∈ seen then dedupFirstAux rest seen
    else x :: dedupFirstAux rest (x :: seen)

def dedupFirst (l : List String) : List String := dedupFirstAux l []

def argmaxGo (l : List String) (best : String) : List String → String
  | [] => best
  | x :: rest => argmaxGo l (if countOcc l x > countOcc l best then x else best) rest

/-- `Counter(l).most_common(1)[0][0]`: the value of maximal multiplicity,
ties resolved in favour of the value first encountered. -/
def argmaxCount (l : List String) : Option String :=
  match dedupFirst l with
  | [] => none
  | x :: rest => some (argmaxGo l x rest)

def chooseCompanyWebsite (real_entries : List Entry) : String :=
  match argmaxCount (entryWebsites real_entries) with
  | none => "unknown"
  | some w => w

/-! ## `update_company_stats` (db_update.py lines 171-297) -/

/-- Python `round(q, 2)` modelled on rationals: shift by two digits,
round to an integer, shift back. -/
def pyRound2 (q : Rat) : Rat := ((⌊q * 100 + 1 / 2⌋ : Int) : Rat) / 100

/-- `round((fake / total) * 100, 2) if total else 0.0`. -/
def fraudPct (fake total : Nat) : Rat :=
  if total = 0 then 0 else pyRound2 ((fake : Rat) / (total : Rat) * 100)

/-- `str(result).strip().upper().startswith("REAL")`. -/
def isRealVerdict (result : PyVal) : Bool :=
  "REAL".data.isPrefixOf (pyUpper (pyStrip (pyStr result))).data

/-- The unique-pattern merge (db_update.py lines 246-258): append each new
pattern not already present, preserving first-seen order. -/
def mergePatterns (existing : List String) (patterns : List String) : List String :=
  patterns.foldl (fun acc p => if p ∈ acc then acc else acc ++ [p]) existing

/-- `(website or "unknown").strip()`. -/
def websiteClean : Option String → String
  | none => "unknown"
  | some s => if s = "" then "unknown" else pyStrip s

/-- One observation handed to `update_company_stats`; the timestamp stands
for `datetime.utcnow().isoformat()`, an environment input. -/
structure MergeInput where
  company_name : PyVal
  website : Option String
  location : PyVal
  result : PyVal
  confidence : Int
  patterns : List String
  timestamp : String
deriving Repr, DecidableEq

def mkEntry (inp : MergeInput) : Entry :=
  { website := websiteClean inp.website
    location := normalizeLocation inp.location
    timestamp := inp.timestamp
    confidence_score := inp.confidence }

/-- Steps 5-9 of the merge (db_update.py lines 235-267): append the entry,
bump the matching count, recompute the total, merge patterns, recompute the
canonical website from the real entries, recompute the fraud percentage. -/
def mergeDoc (base : CompanyRecord) (entry : Entry) (result : PyVal)
    (patterns : List String) : CompanyRecord :=
  if isRealVerdict result then
    let ri : InternshipGroup :=
      ⟨mergePatterns base.real_internships.pattern_matches patterns,
       base.real_internships.entries ++ [entry]⟩
    let rc := base.real_count + 1
    let fc := base.fake_count
    { company_name := base.company_name
      company_website := chooseCompanyWebsite ri.entries
      total_analysis_count := rc + fc
      real_count := rc
      fake_count := fc
      fraud_percentage := fraudPct fc (rc + fc)
      real_internships := ri
      fake_internships := base.fake_internships }
  else
    let fi : InternshipGroup :=
      ⟨mergePatterns base.fake_internships.pattern_matches patterns,
       base.fake_internships.entries ++ [entry]⟩
    let rc := base.real_count
    let fc := base.fake_count + 1
    { company_name := base.company_name
      company_website := chooseCompanyWebsite base.real_internships.entries
      total_analysis_count := rc + fc
      real_count := rc
      fake_count := fc
      fraud_percentage := fraudPct fc (rc + fc)
      real_internships := base.real_internships
      fake_internships := fi }

/-- Where the document store can raise: during the reads of
`_find_existing_company` or during the final `replace_one`/`insert_one`.
`update_company_stats` wraps the whole body in `try/except` and returns
`False` on any exception, whose only observable effects are the in-memory
copies — the store itself is untouched. -/
inductive StoreMode where
  | ok
  | failRead
  | failWrite
deriving Repr, DecidableEq

/-- `update_company_stats`: returns the reported boolean and the record set
after the call.  The found document keeps its `_id`, so a successful
`replace_one` writes back at the found index, and `insert_one` appends. -/
def updateCompanyStats (records : List CompanyRecord) (inp : MergeInput)
    (mode : StoreMode) : Bool × List CompanyRecord :=
  if standardizeCompanyName inp.company_name = "" ∨
      standardizeCompanyName inp.company_name = "unknown" then (true, records)
  else if mode = StoreMode.failRead then (false, records)
  else
    match findExistingCompany records (standardizeCompanyName inp.company_name) with
    | some (i, existing, _) =>
      if mode = StoreMode.failWrite then (false, records)
      else (true, records.set i (mergeDoc existing (mkEntry inp) inp.result inp.patterns))
    | none =>
      if mode = StoreMode.failWrite then (false, records)
      else (true, records ++
        [mergeDoc (freshRecord (standardizeCompanyName inp.company_name))
          (mkEntry inp) inp.result inp.patterns])

/-! ## `AnalyticsCore` (analytics_core.py) -/

structure Totals where
  total_analyses : Nat
  total_real : Nat
  total_fake : Nat
  fraud_percentage : Rat
deriving Repr, DecidableEq

/-- `AnalyticsCore.compute_totals` (analytics_core.py lines 6-24). -/
def computeTotals (records : List CompanyRecord) : Totals :=
  { total_analyses :=
      (records.map (fun c => c.real_count)).sum + (records.map (fun c => c.fake_count)).sum
    total_real := (records.map (fun c => c.real_count)).sum
    total_fake := (records.map (fun c => c.fake_count)).sum
    fraud_percentage :=
      if 0 < (records.map (fun c => c.real_count)).sum + (records.map (fun c => c.fake_count)).sum
      then pyRound2 ((((records.map (fun c => c.fake_count)).sum : Nat) : Rat) /
        (((records.map (fun c => c.real_count)).sum + (records.map (fun c => c.fake_count)).sum : Nat) : Rat) * 100)
      else 0 }

/-- One row of the fraud leaderboard. -/
structure FraudItem where
  company_name : String
  fraud_percentage : Rat
  total_analysis_count : Nat
deriving Repr, DecidableEq

/-- Stable insertion for a descending sort: an element passes every earlier
element with a strictly greater key, so equal keys keep their original
relative order — the behaviour of Python's stable `list.sort(reverse=True)`. -/
def insertDesc (x : FraudItem) : List FraudItem → List FraudItem
  | [] => [x]
  | y :: rest =>
    if x.fraud_percentage < y.fraud_percentage then y :: insertDesc x rest
    else x :: y :: rest

def stableSortDesc : List FraudItem → List FraudItem
  | [] => []
  | x :: rest => insertDesc x (stableSortDesc rest)

def fraudItems (records : List CompanyRecord) : List FraudItem :=
  (records.filter (fun c => 0 < c.fraud_percentage)).map
    (fun c => ⟨c.company_name, c.fraud_percentage, c.total_analysis_count⟩)

/-- `AnalyticsCore.top_fraud_companies` (analytics_core.py lines 34-48):
note the source takes no count argument — the truncation to 3 is fixed. -/
def topFraudCompanies (records : List CompanyRecord) : List FraudItem :=
  (stableSortDesc (fraudItems records)).take 3

/-- `loc == "remote"` test of `remote_vs_onsite`. -/
def isRemoteLoc (loc : String) : Bool := pyLower (pyStrip loc) = "remote"

/-- All entries of all records, real then fake per record, in record order. -/
def allEntries : List CompanyRecord → List Entry
  | [] => []
  | c :: rest => (c.real_internships.entries ++ c.fake_internships.entries) ++ allEntries rest

/-- `AnalyticsCore.remote_vs_onsite` (analytics_core.py lines 50-70). -/
def remoteVsOnsite (records : List CompanyRecord) : Nat × Nat :=
  records.foldl
    (fun acc c =>
      ((c.real_internships.entries ++ c.fake_internships.entries).foldl
        (fun a e => if isRemoteLoc e.location then (a.1 + 1, a.2) else (a.1, a.2 + 1))
        acc))
    (0, 0)

/-! ## Resolution and leaderboard as the spec words them -/

/-- Identity resolution as the spec words it: an exact pass, then an
unconditional fuzzy pass comparing alphanumeric reductions — without the
source's guard that skips the fuzzy pass when the input's reduction is
empty. -/
def findExistingCompanySpec (records : List CompanyRecord) (n : String) :
    Option (Nat × CompanyRecord × MatchType) :=
  if n = "unknown" then none
  else
    match findExactAux records (pyLower n) 0 with
    | some (i, r) => some (i, r, .exact)
    | none =>
      match findFuzzyAux records (normalizeForMatching n) 0 with
      | some (i, r) => some (i, r, .fuzzy)
      | none => none

/-- The fraud leaderboard as the spec words it: parameterized by a count
`n` (default 3) — the source has no such parameter. -/
def topFraudCompaniesSpec (n : Nat) (records : List CompanyRecord) : List FraudItem :=
  (stableSortDesc (fraudItems records)).take n

/-! ## Sample data for the spec's concrete scenarios -/

/-- Record A of the rollup scenario: real=8, fake=2, fraud 20.0. -/
def recA : CompanyRecord :=
  { company_name := "A", company_website := "unknown", total_analysis_count := 10,
    real_count := 8, fake_count := 2, fraud_percentage := 20,
    real_internships := ⟨[], []⟩, fake_internships := ⟨[], []⟩ }

/-- Record B of the rollup scenario: real=1, fake=9, fraud 90.0. -/
def recB : CompanyRecord :=
  { company_name := "B", company_website := "unknown", total_analysis_count := 10,
    real_count := 1, fake_count := 9, fraud_percentage := 90,
    real_internships := ⟨[], []⟩, fake_internships := ⟨[], []⟩ }

/-- A minimal REAL observation with the given raw company name. -/
def sampleObs (name : String) : MergeInput :=
  ⟨.vstr name, none, .vnone, .vstr "REAL", 90, [], "t0"⟩

/-- An observation carrying a website and verdict, for the website
derivation scenario. -/
def siteObs (name : String) (res : String) (site : String) : MergeInput :=
  ⟨.vstr name, some site, .vnone, .vstr res, 90, [], "t0"⟩

/-- One entry whose only relevant field is its location. -/
def locEntry (loc : String) : Entry := ⟨"unknown", loc, "t0", 0⟩

/-- The record of the remote/onsite tally scenario: entry locations
`["Remote", "remote ", "Hybrid", "Austin, TX"]`. -/
def locDemoRecord : CompanyRecord :=
  { company_name := "Demo", company_website := "unknown", total_analysis_count := 4,
    real_count := 2, fake_count := 2, fraud_percentage := 50,
    real_internships := ⟨[], [locEntry "Remote", locEntry "remote "]⟩,
    fake_internships := ⟨[], [locEntry "Hybrid", locEntry "Austin, TX"]⟩ }

/-- The record of the website-derivation scenario: three REAL entries with
websites `["acme.com", "acme.com", "unknown"]` and one FAKE entry with
website `"scam.net"`. -/
def siteDemoRecord : CompanyRecord :=
  { company_name := "Acme", company_website := "acme.com", total_analysis_count := 4,
    real_count := 3, fake_count := 1, fraud_percentage := 25,
    real_internships := ⟨[], [⟨"acme.com", "Remote", "t0", 90⟩,
      ⟨"acme.com", "Remote", "t0", 90⟩, ⟨"unknown", "Remote", "t0", 90⟩]⟩,
    fake_internships := ⟨[], [⟨"scam.net", "Remote", "t0", 90⟩]⟩ }

/-- The per-record invariant the spec states (C1): the stored total equals
the sum of the counts, equals the number of stored entries, and the stored
fraud percentage is derived from the counts. -/
def countInvariant (r : CompanyRecord) : Prop :=
  r.total_analysis_count = r.real_count + r.fake_count ∧
  r.total_analysis_count =
    r.real_internships.entries.length + r.fake_internships.entries.length ∧
  r.fraud_percentage = fraudPct r.fake_count r.total_analysis_count

/-! ## Helper lemmas -/

theorem finalValidate_ne_empty (name : String) : finalValidate name ≠ "" := by
  unfold finalValidate
  split
  · simp
  · next h =>
    simp only [not_or] at h
    exact h.1

theorem standardizeStr_ne_empty (s : String) : standardizeStr s ≠ "" := by
  unfold standardizeStr
  split
  · simp
  · exact finalValidate_ne_empty _

theorem standardize_ne_empty (v : PyVal) : standardizeCompanyName v ≠ "" := by
  cases v with
  | vstr s =>
    by_cases h : s = ""
    · simp [standardizeCompanyName, h]
    · simpa [standardizeCompanyName, h] using standardizeStr_ne_empty s
  | vnone => simp [standardizeCompanyName]
  | vint n => simp [standardizeCompanyName]
  | vbool b => simp [standardizeCompanyName]

theorem mergeDoc_company_name (base : CompanyRecord) (entry : Entry) (result : PyVal)
    (patterns : List String) :
    (mergeDoc base entry result patterns).company_name = base.company_name := by
  unfold mergeDoc; split <;> rfl

theorem mergeDoc_counts (base : CompanyRecord) (entry : Entry) (result : PyVal)
    (patterns : List String) :
    (mergeDoc base entry result patterns).real_count +
      (mergeDoc base entry result patterns).fake_count =
      base.real_count + base.fake_count + 1 := by
  unfold mergeDoc; split <;> simp <;> omega

theorem mergeDoc_invariant (base : CompanyRecord) (entry : Entry) (result : PyVal)
    (patterns : List String)
    (h : base.real_count + base.fake_count =
      base.real_internships.entries.length + base.fake_internships.entries.length) :
    countInvariant (mergeDoc base entry result patterns) := by
  unfold mergeDoc countInvariant; split <;>
    simp <;> omega

theorem findExactAux_mem (records : List CompanyRecord) (low : String) (k i : Nat)
    (r : CompanyRecord) (h : findExactAux records low k = some (i, r)) : r ∈ records := by
  induction records generalizing k with
  | nil => simp [findExactAux] at h
  | cons x rest ih =>
    unfold findExactAux at h
    split at h
    · simp at h; simp [h.2]
    · exact List.mem_cons_of_mem x (ih _ h)

theorem findFuzzyAux_mem (records : List CompanyRecord) (norm : String) (k i : Nat)
    (r : CompanyRecord) (h : findFuzzyAux records norm k = some (i, r)) : r ∈ records := by
  induction records generalizing k with
  | nil => simp [findFuzzyAux] at h
  | cons x rest ih =>
    unfold findFuzzyAux at h
    split at h
    · simp at h; simp [h.2]
    · exact List.mem_cons_of_mem x (ih _ h)

theorem findExistingCompany_mem (records : List CompanyRecord) (n : String)
    (i : Nat) (r : CompanyRecord) (mt : MatchType)
    (h : findExistingCompany records n = some (i, r, mt)) : r ∈ records := by
  unfold findExistingCompany at h
  split at h
  · exact absurd h (by simp)
  · split at h
    · next i' r' heq =>
      simp only [Option.some.injEq, Prod.mk.injEq] at h
      obtain ⟨h1, h2, _⟩ := h
      exact findExactAux_mem records _ 0 _ _ (by rw [heq, h1, h2])
    · split at h
      · exact absurd h (by simp)
      · split at h
        · next i' r' heq =>
          simp only [Option.some.injEq, Prod.mk.injEq] at h
          obtain ⟨h1, h2, _⟩ := h
          exact findFuzzyAux_mem records _ 0 _ _ (by rw [heq, h1, h2])
        · exact absurd h (by simp)

theorem findExistingCompany_ne_unknown (records : List CompanyRecord) (n : String)
    (x : Nat × CompanyRecord × MatchType)
    (h : findExistingCompany records n = some x) : ¬(n = "" ∨ n = "unknown") := by
  intro hcon
  unfold findExistingCompany at h
  rw [if_pos (by simpa using hcon)] at h
  exact absurd h (by simp)

/-! ## Claim theorems -/

/-- C3: an observation whose company name standardizes to `"unknown"`
(as empty and non-string inputs do) leaves every record of the record set
unchanged — no insert or replace happens — and the call reports success. -/
theorem skip_unknown_company_noop (records : List CompanyRecord) (inp : MergeInput)
    (mode : StoreMode) (h : standardizeCompanyName inp.company_name = "unknown") :
    updateCompanyStats records inp mode = (true, records) ∧
    standardizeCompanyName (PyVal.vstr "") = "unknown" ∧
    standardizeCompanyName PyVal.vnone = "unknown" ∧
    standardizeCompanyName (PyVal.vint 7) = "unknown" := by
  refine ⟨?_, by decide, by decide, by decide⟩
  unfold updateCompanyStats
  rw [if_pos (Or.inr h)]

/-- Witness for C3 at the concrete generic name `"n/a"` and a one-record
store. -/
theorem skip_unknown_company_noop_witness :
    standardizeCompanyName (sampleObs "n/a").company_name = "unknown" ∧
    (updateCompanyStats [recA] (sampleObs "n/a") StoreMode.ok = (true, [recA]) ∧
      standardizeCompanyName (PyVal.vstr "") = "unknown" ∧
      standardizeCompanyName PyVal.vnone = "unknown" ∧
      standardizeCompanyName (PyVal.vint 7) = "unknown") :=
  ⟨by decide, skip_unknown_company_noop [recA] (sampleObs "n/a") StoreMode.ok (by decide)⟩

/-- C6: when the store fails (during the reads or the final write) on a
merge that was not skipped, `update_company_stats` reports failure by
returning `False` instead of raising, and the record set — in particular
the targeted record — is exactly as before the attempt: no partial
counts, entries, patterns, website or fraud percentage are visible. -/
theorem store_failure_returns_false (records : List CompanyRecord) (inp : MergeInput)
    (mode : StoreMode) (hmode : mode ≠ StoreMode.ok)
    (hname : standardizeCompanyName inp.company_name ≠ "unknown") :
    updateCompanyStats records inp mode = (false, records) := by
  have hguard : ¬(standardizeCompanyName inp.company_name = "" ∨
      standardizeCompanyName inp.company_name = "unknown") := by
    rintro (h | h)
    · exact standardize_ne_empty _ h
    · exact hname h
  unfold updateCompanyStats
  rw [if_neg hguard]
  cases mode with
  | ok => exact absurd rfl hmode
  | failRead => rfl
  | failWrite =>
    rw [if_neg (by decide : ¬(StoreMode.failWrite = StoreMode.failRead))]
    rcases hf : findExistingCompany records (standardizeCompanyName inp.company_name)
      with _ | ⟨i, r, mt⟩ <;> simp [hf]

/-- Witness for C6: a failing write on a merge of `"Acme"` into an empty
store returns `False` and the empty store. -/
theorem store_failure_returns_false_witness :
    StoreMode.failWrite ≠ StoreMode.ok ∧
    standardizeCompanyName (sampleObs "Acme").company_name ≠ "unknown" ∧
    updateCompanyStats [] (sampleObs "Acme") StoreMode.failWrite = (false, []) :=
  ⟨by decide, by decide,
    store_failure_returns_false [] (sampleObs "Acme") StoreMode.failWrite
      (by decide) (by decide)⟩

/-- C10: the merge classifies a verdict as REAL exactly when
`str(result).strip().upper()` starts with `"REAL"`; any other value —
`None`, the empty string, a non-string — appends the entry to the fake
entries and increments `fake_count`, leaving the real side untouched, and
no exception is raised (a missing verdict is silently counted as FAKE). -/
theorem nonreal_verdict_counts_fake (base : CompanyRecord) (entry : Entry)
    (result : PyVal) (patterns : List String) (h : isRealVerdict result = false) :
    (mergeDoc base entry result patterns).fake_internships.entries =
      base.fake_internships.entries ++ [entry] ∧
    (mergeDoc base entry result patterns).fake_count = base.fake_count + 1 ∧
    (mergeDoc base entry result patterns).real_count = base.real_count ∧
    (mergeDoc base entry result patterns).real_internships = base.real_internships ∧
    isRealVerdict result =
      "REAL".data.isPrefixOf (pyUpper (pyStrip (pyStr result))).data ∧
    isRealVerdict PyVal.vnone = false ∧
    isRealVerdict (PyVal.vstr "") = false ∧
    isRealVerdict (PyVal.vint 5) = false ∧
    isRealVerdict (PyVal.vstr " real job ") = true ∧
    ((updateCompanyStats [] ⟨PyVal.vstr "Acme", none, PyVal.vnone, PyVal.vnone, 0, [], "t0"⟩
        StoreMode.ok).2.map (fun r => (r.real_count, r.fake_count))) = [(0, 1)] := by
  refine ⟨?_, ?_, ?_, ?_, rfl, by decide, by decide, by decide, by decide, by decide⟩ <;>
    simp [mergeDoc, h]

/-- Witness for C10 at a `None` verdict merged into a fresh record. -/
theorem nonreal_verdict_counts_fake_witness :
    isRealVerdict PyVal.vnone = false ∧
    ((mergeDoc (freshRecord "X") (locEntry "x") PyVal.vnone []).fake_internships.entries =
        (freshRecord "X").fake_internships.entries ++ [locEntry "x"] ∧
      (mergeDoc (freshRecord "X") (locEntry "x") PyVal.vnone []).fake_count =
        (freshRecord "X").fake_count + 1 ∧
      (mergeDoc (freshRecord "X") (locEntry "x") PyVal.vnone []).real_count =
        (freshRecord "X").real_count ∧
      (mergeDoc (freshRecord "X") (locEntry "x") PyVal.vnone []).real_internships =
        (freshRecord "X").real_internships ∧
      isRealVerdict PyVal.vnone =
        "REAL".data.isPrefixOf (pyUpper (pyStrip (pyStr PyVal.vnone))).data ∧
      isRealVerdict PyVal.vnone = false ∧
      isRealVerdict (PyVal.vstr "") = false ∧
      isRealVerdict (PyVal.vint 5) = false ∧
      isRealVerdict (PyVal.vstr " real job ") = true ∧
      ((updateCompanyStats [] ⟨PyVal.vstr "Acme", none, PyVal.vnone, PyVal.vnone, 0, [], "t0"⟩
          StoreMode.ok).2.map (fun r => (r.real_count, r.fake_count))) = [(0, 1)]) :=
  ⟨by decide, nonreal_verdict_counts_fake (freshRecord "X") (locEntry "x") PyVal.vnone []
    (by decide)⟩

/-- C7: `compute_totals` sums the per-record real and fake counts, reports
their sum as `total_analyses`, derives the global fraud percentage by the
`round(total_fake/total*100, 2)` rule with `0` on no data, returns the
all-zero structure on an empty record set, and on records A (8 real, 2
fake) and B (1 real, 9 fake) returns totals 9/11/20 with fraud 55.0. -/
theorem compute_totals_correct (records : List CompanyRecord) :
    (computeTotals records).total_real = (records.map (fun c => c.real_count)).sum ∧
    (computeTotals records).total_fake = (records.map (fun c => c.fake_count)).sum ∧
    (computeTotals records).total_analyses =
      (computeTotals records).total_real + (computeTotals records).total_fake ∧
    (computeTotals records).fraud_percentage =
      fraudPct (computeTotals records).total_fake (computeTotals records).total_analyses ∧
    computeTotals [] = ⟨0, 0, 0, 0⟩ ∧
    computeTotals [recA, recB] = ⟨20, 9, 11, 55⟩ := by
  refine ⟨rfl, rfl, rfl, ?_, by rfl, ?_⟩
  · simp only [computeTotals]
    unfold fraudPct
    by_cases h : (records.map (fun c => c.real_count)).sum + (records.map (fun c => c.fake_count)).sum = 0
    · rw [if_neg (by omega), if_pos h]
    · rw [if_pos (by omega), if_neg h]
  · have h9 : ((([recA, recB] : List CompanyRecord).map (fun c => c.real_count)).sum) = 9 := by decide
    have h11 : ((([recA, recB] : List CompanyRecord).map (fun c => c.fake_count)).sum) = 11 := by decide
    simp only [computeTotals, h9, h11, Totals.mk.injEq]
    norm_num [pyRound2]

theorem filter_split_length (l : List Entry) (p : Entry → Bool) :
    (l.filter p).length + (l.filter (fun x => !p x)).length = l.length := by
  induction l with
  | nil => simp
  | cons x rest ih =>
    by_cases h : p x <;> simp [List.filter_cons, h] <;> omega

theorem remoteCountAux (entries : List Entry) (acc : Nat × Nat) :
    List.foldl (fun (a : Nat × Nat) e =>
      if isRemoteLoc e.location then (a.1 + 1, a.2) else (a.1, a.2 + 1)) acc entries =
    (acc.1 + (entries.filter (fun e => isRemoteLoc e.location)).length,
     acc.2 + (entries.filter (fun e => !isRemoteLoc e.location)).length) := by
  induction entries generalizing acc with
  | nil => simp
  | cons e rest ih =>
    rw [List.foldl_cons, ih]
    by_cases h : isRemoteLoc e.location <;>
      simp [h, List.filter_cons, Prod.ext_iff] <;> omega

theorem remoteVsOnsiteAux (records : List CompanyRecord) (acc : Nat × Nat) :
    List.foldl
      (fun acc c =>
        ((c.real_internships.entries ++ c.fake_internships.entries).foldl
          (fun a e => if isRemoteLoc e.location then (a.1 + 1, a.2) else (a.1, a.2 + 1))
          acc))
      acc records =
    (acc.1 + ((allEntries records).filter (fun e => isRemoteLoc e.location)).length,
     acc.2 + ((allEntries records).filter (fun e => !isRemoteLoc e.location)).length) := by
  induction records generalizing acc with
  | nil => simp [allEntries]
  | cons c rest ih =>
    rw [List.foldl_cons, remoteCountAux, ih]
    simp [allEntries, List.filter_append, Prod.ext_iff]
    constructor <;> omega

/-- C9: `remote_vs_onsite` scans every entry of every record (real and
fake alike) and counts an entry as remote exactly when its location,
trimmed and lowercased, is `"remote"`; everything else — `"Hybrid"`,
literal locations, `"unknown"` — counts as onsite, the two tallies
partition all entries, and locations
`["Remote", "remote ", "Hybrid", "Austin, TX"]` give `remote=2, onsite=2`. -/
theorem remote_vs_onsite_tally (records : List CompanyRecord) :
    remoteVsOnsite records =
      (((allEntries records).filter (fun e => isRemoteLoc e.location)).length,
       ((allEntries records).filter (fun e => !isRemoteLoc e.location)).length) ∧
    ((allEntries records).filter (fun e => isRemoteLoc e.location)).length +
      ((allEntries records).filter (fun e => !isRemoteLoc e.location)).length =
      (allEntries records).length ∧
    isRemoteLoc "Remote" = true ∧
    isRemoteLoc "remote " = true ∧
    isRemoteLoc "Hybrid" = false ∧
    isRemoteLoc "Austin, TX" = false ∧
    isRemoteLoc "unknown" = false ∧
    remoteVsOnsite [locDemoRecord] = (2, 2) := by
  refine ⟨?_, filter_split_length _ _, by decide, by decide, by decide, by decide,
    by decide, by decide⟩
  unfold remoteVsOnsite
  rw [remoteVsOnsiteAux]
  simp

/-- C1: a merge preserves the record-set invariant: the stored
`total_analysis_count` equals `real_count + fake_count`, equals the number
of stored real plus fake entries, and `fraud_percentage` equals
`round(fake_count/total*100, 2)` when the total is positive and `0.0`
otherwise — for every record created or updated by `update_company_stats`,
given that the invariant held beforehand. -/
theorem merge_preserves_count_invariant (records : List CompanyRecord) (inp : MergeInput)
    (mode : StoreMode) (hpre : ∀ r ∈ records, countInvariant r) :
    ∀ r ∈ (updateCompanyStats records inp mode).2, countInvariant r := by
  intro r hr
  unfold updateCompanyStats at hr
  split at hr
  · exact hpre r hr
  · split at hr
    · exact hpre r hr
    · split at hr
      · next i existing mt hfind =>
        split at hr
        · exact hpre r hr
        · rcases List.mem_or_eq_of_mem_set hr with h | rfl
          · exact hpre r h
          · apply mergeDoc_invariant
            obtain ⟨h1, h2, _⟩ :=
              hpre existing (findExistingCompany_mem records _ i existing mt hfind)
            omega
      · split at hr
        · exact hpre r hr
        · rcases List.mem_append.mp hr with h | h
          · exact hpre r h
          · rcases List.mem_singleton.mp h with rfl
            apply mergeDoc_invariant
            simp [freshRecord]

/-- Witness for C1: merging `"Acme"` into the empty record set. -/
theorem merge_preserves_count_invariant_witness :
    (∀ r ∈ ([] : List CompanyRecord), countInvariant r) ∧
    (∀ r ∈ (updateCompanyStats [] (sampleObs "Acme") StoreMode.ok).2, countInvariant r) :=
  ⟨by simp, merge_preserves_count_invariant [] (sampleObs "Acme") StoreMode.ok (by simp)⟩

/-- C4: a merge that resolves (exactly or fuzzily) to an existing record
replaces that record in place, keeps its previously stored
`company_name` — the first-seen spelling — and still advances its counts
by one. -/
theorem resolved_merge_keeps_display_name (records : List CompanyRecord) (inp : MergeInput)
    (i : Nat) (existing : CompanyRecord) (mt : MatchType)
    (hfind : findExistingCompany records (standardizeCompanyName inp.company_name) =
      some (i, existing, mt)) :
    (updateCompanyStats records inp StoreMode.ok).2 =
      records.set i (mergeDoc existing (mkEntry inp) inp.result inp.patterns) ∧
    (mergeDoc existing (mkEntry inp) inp.result inp.patterns).company_name =
      existing.company_name ∧
    (mergeDoc existing (mkEntry inp) inp.result inp.patterns).real_count +
      (mergeDoc existing (mkEntry inp) inp.result inp.patterns).fake_count =
      existing.real_count + existing.fake_count + 1 := by
  refine ⟨?_, mergeDoc_company_name _ _ _ _, mergeDoc_counts _ _ _ _⟩
  have hguard := findExistingCompany_ne_unknown records _ _ hfind
  unfold updateCompanyStats
  rw [if_neg hguard, if_neg (by decide : ¬(StoreMode.ok = StoreMode.failRead)), hfind]
  rfl

/-- Witness for C4: an observation `"GOOGLE"` resolving to the stored
record `"Google"`. -/
theorem resolved_merge_keeps_display_name_witness :
    findExistingCompany [freshRecord "Google"]
      (standardizeCompanyName (sampleObs "GOOGLE").company_name) =
      some (0, freshRecord "Google", MatchType.exact) ∧
    ((updateCompanyStats [freshRecord "Google"] (sampleObs "GOOGLE") StoreMode.ok).2 =
      [freshRecord "Google"].set 0
        (mergeDoc (freshRecord "Google") (mkEntry (sampleObs "GOOGLE"))
          (sampleObs "GOOGLE").result (sampleObs "GOOGLE").patterns) ∧
    (mergeDoc (freshRecord "Google") (mkEntry (sampleObs "GOOGLE"))
        (sampleObs "GOOGLE").result (sampleObs "GOOGLE").patterns).company_name =
      (freshRecord "Google").company_name ∧
    (mergeDoc (freshRecord "Google") (mkEntry (sampleObs "GOOGLE"))
        (sampleObs "GOOGLE").result (sampleObs "GOOGLE").patterns).real_count +
      (mergeDoc (freshRecord "Google") (mkEntry (sampleObs "GOOGLE"))
        (sampleObs "GOOGLE").result (sampleObs "GOOGLE").patterns).fake_count =
      (freshRecord "Google").real_count + (freshRecord "Google").fake_count + 1) :=
  ⟨by decide, resolved_merge_keeps_display_name [freshRecord "Google"] (sampleObs "GOOGLE")
    0 (freshRecord "Google") MatchType.exact (by decide)⟩

/-- C2 (counterexample): the claim as stated fails when the input's
alphanumeric reduction is empty.  Both `"!!!"` and `"###"` are
reachable normalized names, their reductions coincide (both are empty),
so the claim's fuzzy pass should resolve `"!!!"` to the stored `"###"`
record — but the source skips the fuzzy pass and returns no match. -/
theorem identity_resolution_two_pass_counterexample :
    standardizeCompanyName (PyVal.vstr "!!!") = "!!!" ∧
    standardizeCompanyName (PyVal.vstr "###") = "###" ∧
    normalizeForMatching "!!!" = normalizeForMatching "###" ∧
    findExistingCompany [freshRecord "###"] "!!!" = none ∧
    findExistingCompanySpec [freshRecord "###"] "!!!" =
      some (0, freshRecord "###", MatchType.fuzzy) := by
  refine ⟨by decide, by decide, by decide, by decide, by decide⟩

/-- C2 (amended): resolution returns no match on `"unknown"`; otherwise
it runs the exact case-insensitive pass first and, only when that fails
and the input's alphanumeric reduction is non-empty, the fuzzy pass on
reductions, first match winning in both passes; when the reduction is
empty the fuzzy pass is skipped and only the exact pass can match.
`"Google Inc."` and `"GOOGLE"` still land on one record, `"Acme"` and
`"Acme Robotics"` on two. -/
theorem identity_resolution_two_pass (records : List CompanyRecord) (n : String)
    (hne : n ≠ "") :
    (n = "unknown" → findExistingCompany records n = none) ∧
    (n ≠ "unknown" → normalizeForMatching n ≠ "" →
      findExistingCompany records n = findExistingCompanySpec records n) ∧
    (n ≠ "unknown" → normalizeForMatching n = "" →
      findExistingCompany records n =
        (match findExactAux records (pyLower n) 0 with
         | some (i, r) => some (i, r, MatchType.exact)
         | none => none)) ∧
    ((updateCompanyStats [] (sampleObs "Google Inc.") StoreMode.ok).2.map
      (fun r => r.company_name) = ["Google"]) ∧
    ((updateCompanyStats (updateCompanyStats [] (sampleObs "Google Inc.") StoreMode.ok).2
        (sampleObs "GOOGLE") StoreMode.ok).2.map
      (fun r => (r.company_name, r.total_analysis_count)) = [("Google", 2)]) ∧
    ((updateCompanyStats (updateCompanyStats [] (sampleObs "Acme") StoreMode.ok).2
        (sampleObs "Acme Robotics") StoreMode.ok).2.map
      (fun r => r.company_name) = ["Acme", "Acme Robotics"]) := by
  refine ⟨?_, ?_, ?_, by decide, by decide, by decide⟩
  · intro h
    simp [findExistingCompany, h]
  · intro h1 h2
    unfold findExistingCompany findExistingCompanySpec
    rw [if_neg (fun hc => hc.elim hne h1), if_neg h1]
    rcases hex : findExactAux records (pyLower n) 0 with _ | ⟨i, r⟩
    · simp [h2]
    · rfl
  · intro h1 h2
    unfold findExistingCompany
    rw [if_neg (fun hc => hc.elim hne h1)]
    rcases hex : findExactAux records (pyLower n) 0 with _ | ⟨i, r⟩
    · simp [h2]
    · rfl

/-- Witness for C2 (amended) at the name `"Acme"` over the empty record
set. -/
theorem identity_resolution_two_pass_witness :
    ("Acme" : String) ≠ "" ∧
    (("Acme" : String) = "unknown" → findExistingCompany [] "Acme" = none) ∧
    (("Acme" : String) ≠ "unknown" → normalizeForMatching "Acme" ≠ "" →
      findExistingCompany [] "Acme" = findExistingCompanySpec [] "Acme") ∧
    (("Acme" : String) ≠ "unknown" → normalizeForMatching "Acme" = "" →
      findExistingCompany [] "Acme" =
        (match findExactAux [] (pyLower "Acme") 0 with
         | some (i, r) => some (i, r, MatchType.exact)
         | none => none)) ∧
    ((updateCompanyStats [] (sampleObs "Google Inc.") StoreMode.ok).2.map
      (fun r => r.company_name) = ["Google"]) ∧
    ((updateCompanyStats (updateCompanyStats [] (sampleObs "Google Inc.") StoreMode.ok).2
        (sampleObs "GOOGLE") StoreMode.ok).2.map
      (fun r => (r.company_name, r.total_analysis_count)) = [("Google", 2)]) ∧
    ((updateCompanyStats (updateCompanyStats [] (sampleObs "Acme") StoreMode.ok).2
        (sampleObs "Acme Robotics") StoreMode.ok).2.map
      (fun r => r.company_name) = ["Acme", "Acme Robotics"]) := by
  exact ⟨by decide, identity_resolution_two_pass [] "Acme" (by decide)⟩

theorem argmaxGo_spec (l : List String) (xs : List String) (best : String) :
    (∀ y ∈ best :: xs, countOcc l y ≤ countOcc l (argmaxGo l best xs)) ∧
    ∃ pre post, best :: xs = pre ++ argmaxGo l best xs :: post ∧
      ∀ v ∈ pre, countOcc l v < countOcc l (argmaxGo l best xs) := by
  induction xs generalizing best with
  | nil =>
    constructor
    · intro y hy
      rcases List.mem_singleton.mp hy with rfl
      exact le_refl _
    · exact ⟨[], [], rfl, by simp⟩
  | cons x rest ih =>
    by_cases h : countOcc l x > countOcc l best
    · have e : argmaxGo l best (x :: rest) = argmaxGo l x rest := by
        simp [argmaxGo, h]
      obtain ⟨hmax, pre, post, hdec, hpre⟩ := ih x
      rw [e]
      have hx : countOcc l x ≤ countOcc l (argmaxGo l x rest) :=
        hmax x (List.mem_cons_self x rest)
      constructor
      · intro y hy
        rcases List.mem_cons.mp hy with rfl | hy'
        · omega
        · exact hmax y hy'
      · refine ⟨best :: pre, post, ?_, ?_⟩
        · rw [List.cons_append, ← hdec]
        · intro v hv
          rcases List.mem_cons.mp hv with rfl | hv'
          · omega
          · exact hpre v hv'
    · have e : argmaxGo l best (x :: rest) = argmaxGo l best rest := by
        simp [argmaxGo, h]
      obtain ⟨hmax, pre, post, hdec, hpre⟩ := ih best
      rw [e]
      have hb : countOcc l best ≤ countOcc l (argmaxGo l best rest) :=
        hmax best (List.mem_cons_self best rest)
      constructor
      · intro y hy
        rcases List.mem_cons.mp hy with rfl | hy'
        · exact hb
        · rcases List.mem_cons.mp hy' with rfl | hy''
          · omega
          · exact hmax y (List.mem_cons_of_mem best hy'')
      · cases pre with
        | nil =>
          have hhead : best = argmaxGo l best rest := by
            simpa using congrArg (fun t => t.head?) hdec
          refine ⟨[], x :: rest, ?_, by simp⟩
          simp [← hhead]
        | cons p pre' =>
          rcases List.cons.injEq _ _ _ _ ▸ hdec with ⟨hp, htail⟩
          refine ⟨best :: x :: pre', post, ?_, ?_⟩
          · exact congrArg (fun t => best :: x :: t) htail
          · intro v hv
            have hbestlt : countOcc l best < countOcc l (argmaxGo l best rest) := by
              have := hpre p (List.mem_cons_self p pre')
              rw [← hp] at this
              exact this
            rcases List.mem_cons.mp hv with rfl | hv'
            · exact hbestlt
            · rcases List.mem_cons.mp hv' with rfl | hv''
              · omega
              · exact hpre v (List.mem_cons_of_mem p hv'')

theorem mem_dedupFirstAux_of (l : List String) (seen : List String) (v : String)
    (hv : v ∈ l) (hs : v ∉ seen) : v ∈ dedupFirstAux l seen := by
  induction l generalizing seen with
  | nil => simp at hv
  | cons x rest ih =>
    unfold dedupFirstAux
    rcases List.mem_cons.mp hv with rfl | hv'
    · split
      · next h => exact absurd h hs
      · exact List.mem_cons_self _ _
    · split
      · exact ih seen hv' hs
      · by_cases hvx : v = x
        · rw [hvx]; exact List.mem_cons_self _ _
        · exact List.mem_cons_of_mem _
            (ih (x :: seen) hv' (by simp [hvx, hs]))

theorem dedupFirstAux_sub (l : List String) (seen : List String) (v : String)
    (hv : v ∈ dedupFirstAux l seen) : v ∈ l := by
  induction l generalizing seen with
  | nil => simp [dedupFirstAux] at hv
  | cons x rest ih =>
    unfold dedupFirstAux at hv
    split at hv
    · exact List.mem_cons_of_mem _ (ih _ hv)
    · rcases List.mem_cons.mp hv with rfl | hv'
      · exact List.mem_cons_self _ _
      · exact List.mem_cons_of_mem _ (ih _ hv')

theorem mergeDoc_website (base : CompanyRecord) (entry : Entry) (result : PyVal)
    (patterns : List String) :
    (mergeDoc base entry result patterns).company_website =
      chooseCompanyWebsite (mergeDoc base entry result patterns).real_internships.entries := by
  unfold mergeDoc; split <;> rfl

/-- Every record the merge writes (one not already in the input set) is a
`mergeDoc` result, so its website is derived from its own real entries. -/
theorem written_record_website (records : List CompanyRecord) (inp : MergeInput)
    (r : CompanyRecord) (hr : r ∈ (updateCompanyStats records inp StoreMode.ok).2)
    (hnew : r ∉ records) :
    r.company_website = chooseCompanyWebsite r.real_internships.entries := by
  unfold updateCompanyStats at hr
  split at hr
  · exact absurd hr hnew
  · split at hr
    · exact absurd hr hnew
    · split at hr
      · split at hr
        · exact absurd hr hnew
        · rcases List.mem_or_eq_of_mem_set hr with h | rfl
          · exact absurd h hnew
          · exact mergeDoc_website _ _ _ _
      · split at hr
        · exact absurd hr hnew
        · rcases List.mem_append.mp hr with h | h
          · exact absurd h hnew
          · rcases List.mem_singleton.mp h with rfl
            exact mergeDoc_website _ _ _ _

/-- C5: after a merge, the written record's canonical website is computed
from its own real entries only (fake entries never enter the computation);
the computation returns `"unknown"` when no real entry has a usable
website, and otherwise the most frequent collected website value, ties
resolved in favour of the value first encountered in scan order; the
spec's scenario (real websites `acme.com, acme.com, unknown`; fake
`scam.net`) yields `"acme.com"`. -/
theorem website_mode_over_real_entries (records : List CompanyRecord) (inp : MergeInput)
    (r' : CompanyRecord) (hmem : r' ∈ (updateCompanyStats records inp StoreMode.ok).2)
    (hnew : r' ∉ records) :
    r'.company_website = chooseCompanyWebsite r'.real_internships.entries ∧
    (∀ entries : List Entry,
      entryWebsites entries = [] → chooseCompanyWebsite entries = "unknown") ∧
    (∀ entries : List Entry, entryWebsites entries ≠ [] →
      chooseCompanyWebsite entries ∈ entryWebsites entries ∧
      (∀ v ∈ entryWebsites entries, countOcc (entryWebsites entries) v ≤
        countOcc (entryWebsites entries) (chooseCompanyWebsite entries)) ∧
      ∃ pre post,
        dedupFirst (entryWebsites entries) = pre ++ chooseCompanyWebsite entries :: post ∧
        ∀ v ∈ pre, countOcc (entryWebsites entries) v <
          countOcc (entryWebsites entries) (chooseCompanyWebsite entries)) ∧
    chooseCompanyWebsite siteDemoRecord.real_internships.entries = "acme.com" ∧
    ((updateCompanyStats
        ((updateCompanyStats
          ((updateCompanyStats
            ((updateCompanyStats [] (siteObs "Acme" "REAL" "acme.com") StoreMode.ok).2)
            (siteObs "Acme" "REAL" "acme.com") StoreMode.ok).2)
          (siteObs "Acme" "REAL" "unknown") StoreMode.ok).2)
        (siteObs "Acme" "FAKE" "scam.net") StoreMode.ok).2.map
      (fun r => (r.company_website, r.real_count, r.fake_count)) = [("acme.com", 3, 1)]) := by
  refine ⟨written_record_website records inp r' hmem hnew, ?_, ?_, by decide, by decide⟩
  · intro entries he
    unfold chooseCompanyWebsite argmaxCount
    rw [he]
    rfl
  · intro entries he
    unfold chooseCompanyWebsite argmaxCount
    rcases hd : dedupFirst (entryWebsites entries) with _ | ⟨x, rest⟩
    · -- an empty dedup list would force an empty website list
      exfalso
      rcases hl : entryWebsites entries with _ | ⟨w, ws⟩
      · exact he hl
      · have : w ∈ dedupFirst (entryWebsites entries) :=
          mem_dedupFirstAux_of _ [] w (by rw [hl]; exact List.mem_cons_self _ _) (by simp)
        rw [hd] at this
        simp at this
    · obtain ⟨hmax, pre, post, hdec, hpre⟩ :=
        argmaxGo_spec (entryWebsites entries) rest x
      refine ⟨?_, ?_, pre, post, ?_, hpre⟩
      · have : argmaxGo (entryWebsites entries) x rest ∈ x :: rest := by
          rw [hdec]
          exact List.mem_append_right _ (List.mem_cons_self _ _)
        rw [← hd] at this
        exact dedupFirstAux_sub _ _ _ this
      · intro v hv
        have hvd : v ∈ dedupFirst (entryWebsites entries) :=
          mem_dedupFirstAux_of _ [] v hv (by simp)
        rw [hd] at hvd
        exact hmax v hvd
      · exact hdec

/-- Witness for C5: merging one REAL `"Acme"` observation with website
`acme.com` into the empty record set. -/
theorem website_mode_over_real_entries_witness :
    ((mergeDoc (freshRecord "Acme") (mkEntry (siteObs "Acme" "REAL" "acme.com"))
        (siteObs "Acme" "REAL" "acme.com").result (siteObs "Acme" "REAL" "acme.com").patterns) ∈
      (updateCompanyStats [] (siteObs "Acme" "REAL" "acme.com") StoreMode.ok).2) ∧
    ((mergeDoc (freshRecord "Acme") (mkEntry (siteObs "Acme" "REAL" "acme.com"))
        (siteObs "Acme" "REAL" "acme.com").result (siteObs "Acme" "REAL" "acme.com").patterns).company_website =
      chooseCompanyWebsite
        (mergeDoc (freshRecord "Acme") (mkEntry (siteObs "Acme" "REAL" "acme.com"))
          (siteObs "Acme" "REAL" "acme.com").result
          (siteObs "Acme" "REAL" "acme.com").patterns).real_internships.entries ∧
      (∀ entries : List Entry,
        entryWebsites entries = [] → chooseCompanyWebsite entries = "unknown") ∧
      (∀ entries : List Entry, entryWebsites entries ≠ [] →
        chooseCompanyWebsite entries ∈ entryWebsites entries ∧
        (∀ v ∈ entryWebsites entries, countOcc (entryWebsites entries) v ≤
          countOcc (entryWebsites entries) (chooseCompanyWebsite entries)) ∧
        ∃ pre post,
          dedupFirst (entryWebsites entries) = pre ++ chooseCompanyWebsite entries :: post ∧
          ∀ v ∈ pre, countOcc (entryWebsites entries) v <
            countOcc (entryWebsites entries) (chooseCompanyWebsite entries)) ∧
      chooseCompanyWebsite siteDemoRecord.real_internships.entries = "acme.com" ∧
      ((updateCompanyStats
          ((updateCompanyStats
            ((updateCompanyStats
              ((updateCompanyStats [] (siteObs "Acme" "REAL" "acme.com") StoreMode.ok).2)
              (siteObs "Acme" "REAL" "acme.com") StoreMode.ok).2)
            (siteObs "Acme" "REAL" "unknown") StoreMode.ok).2)
          (siteObs "Acme" "FAKE" "scam.net") StoreMode.ok).2.map
        (fun r => (r.company_website, r.real_count, r.fake_count)) = [("acme.com", 3, 1)])) := by
  have hmem : (mergeDoc (freshRecord "Acme") (mkEntry (siteObs "Acme" "REAL" "acme.com"))
      (siteObs "Acme" "REAL" "acme.com").result (siteObs "Acme" "REAL" "acme.com").patterns) ∈
      (updateCompanyStats [] (siteObs "Acme" "REAL" "acme.com") StoreMode.ok).2 := by
    have h : (updateCompanyStats [] (siteObs "Acme" "REAL" "acme.com") StoreMode.ok).2 =
        [mergeDoc (freshRecord "Acme") (mkEntry (siteObs "Acme" "REAL" "acme.com"))
          (siteObs "Acme" "REAL" "acme.com").result
          (siteObs "Acme" "REAL" "acme.com").patterns] := rfl
    rw [h]
    exact List.mem_singleton.mpr rfl
  exact ⟨hmem,
    website_mode_over_real_entries [] (siteObs "Acme" "REAL" "acme.com") _ hmem (by simp)⟩

theorem insertDesc_perm (x : FraudItem) (s : List FraudItem) :
    (insertDesc x s).Perm (x :: s) := by
  induction s with
  | nil => exact List.Perm.refl _
  | cons y rest ih =>
    unfold insertDesc
    split
    · exact (ih.cons y).trans (List.Perm.swap x y rest)
    · exact List.Perm.refl _

theorem insertDesc_sorted (x : FraudItem) (s : List FraudItem)
    (hs : s.Pairwise (fun a b => b.fraud_percentage ≤ a.fraud_percentage)) :
    (insertDesc x s).Pairwise (fun a b => b.fraud_percentage ≤ a.fraud_percentage) := by
  induction s with
  | nil => simp [insertDesc]
  | cons y rest ih =>
    rcases List.pairwise_cons.mp hs with ⟨hy, hrest⟩
    unfold insertDesc
    split
    · next hlt =>
      refine List.pairwise_cons.mpr ⟨?_, ih hrest⟩
      intro z hz
      have hz' := (insertDesc_perm x rest).mem_iff.mp hz
      rcases List.mem_cons.mp hz' with rfl | hz''
      · exact le_of_lt hlt
      · exact hy z hz''
    · next hge =>
      refine List.pairwise_cons.mpr ⟨?_, hs⟩
      intro z hz
      rcases List.mem_cons.mp hz with rfl | hz'
      · exact not_lt.mp hge
      · exact le_trans (hy z hz') (not_lt.mp hge)

theorem insertDesc_filter_key (x : FraudItem) (s : List FraudItem) (q : Rat) :
    (insertDesc x s).filter (fun z => decide (z.fraud_percentage = q)) =
      (x :: s).filter (fun z => decide (z.fraud_percentage = q)) := by
  induction s with
  | nil => rfl
  | cons y rest ih =>
    unfold insertDesc
    split
    · next hlt =>
      by_cases hy : y.fraud_percentage = q <;> by_cases hx : x.fraud_percentage = q
      · exact absurd hlt (by rw [hx, hy]; exact lt_irrefl q)
      · simp [List.filter_cons, hy, hx, ih]
      · simp [List.filter_cons, hy, hx, ih]
      · simp [List.filter_cons, hy, hx, ih]
    · rfl

theorem stableSortDesc_perm (s : List FraudItem) : (stableSortDesc s).Perm s := by
  induction s with
  | nil => exact List.Perm.refl _
  | cons x rest ih =>
    exact (insertDesc_perm x (stableSortDesc rest)).trans (ih.cons x)

theorem stableSortDesc_sorted (s : List FraudItem) :
    (stableSortDesc s).Pairwise (fun a b => b.fraud_percentage ≤ a.fraud_percentage) := by
  induction s with
  | nil => simp [stableSortDesc]
  | cons x rest ih => exact insertDesc_sorted x _ ih

theorem stableSortDesc_filter_key (s : List FraudItem) (q : Rat) :
    (stableSortDesc s).filter (fun z => decide (z.fraud_percentage = q)) =
      s.filter (fun z => decide (z.fraud_percentage = q)) := by
  induction s with
  | nil => rfl
  | cons x rest ih =>
    rw [show stableSortDesc (x :: rest) = insertDesc x (stableSortDesc rest) from rfl,
      insertDesc_filter_key, List.filter_cons, List.filter_cons, ih]

/-- C8 (counterexample): `top_fraud_companies` takes no count argument, so
the claimed call with `n = 1` does not describe the code: on the two
records A (fraud 20.0) and B (fraud 90.0) the code's function returns both
records, not the single record `[B]` the claim asserts for `n = 1`. -/
theorem top_fraud_fixed_three_counterexample :
    topFraudCompanies [recA, recB] =
      [⟨"B", 90, 10⟩, ⟨"A", 20, 10⟩] ∧
    topFraudCompaniesSpec 1 [recA, recB] = [⟨"B", 90, 10⟩] ∧
    topFraudCompanies [recA, recB] ≠ topFraudCompaniesSpec 1 [recA, recB] := by
  refine ⟨by decide, by decide, by decide⟩

/-- C8 (amended): `top_fraud_companies` has no count parameter and always
truncates to 3: it keeps exactly the records with positive fraud
percentage, projected to (name, fraud percentage, total count), sorts them
descending by fraud percentage with a stable sort (the sorted list is a
permutation, pairwise descending, and preserves the original relative
order within every fraud-percentage level), and takes the first 3; on
records A (fraud 20.0) and B (fraud 90.0) it returns `[B, A]`. -/
theorem top_fraud_fixed_three (records : List CompanyRecord) :
    topFraudCompanies records = (stableSortDesc (fraudItems records)).take 3 ∧
    fraudItems records = (records.filter (fun c => 0 < c.fraud_percentage)).map
      (fun c => ⟨c.company_name, c.fraud_percentage, c.total_analysis_count⟩) ∧
    (stableSortDesc (fraudItems records)).Perm (fraudItems records) ∧
    (stableSortDesc (fraudItems records)).Pairwise
      (fun a b => b.fraud_percentage ≤ a.fraud_percentage) ∧
    (∀ q : Rat, (stableSortDesc (fraudItems records)).filter
        (fun z => decide (z.fraud_percentage = q)) =
      (fraudItems records).filter (fun z => decide (z.fraud_percentage = q))) ∧
    (∀ n : Nat, topFraudCompaniesSpec n records =
      (stableSortDesc (fraudItems records)).take n) ∧
    topFraudCompanies [recA, recB] = [⟨"B", 90, 10⟩, ⟨"A", 20, 10⟩] := by
  exact ⟨rfl, rfl, stableSortDesc_perm _, stableSortDesc_sorted _,
    fun q => stableSortDesc_filter_key _ q, fun n => rfl, by decide⟩

end MJ
